import Mathlib

/-!
Verification of the UPR crawler spider (harvesters/upr_crawler/generic_spider.py)
against its natural-language specification.

Strings are modeled as lists of characters, matching the Python `str`
sequence-of-code-points view.  Each definition is a shallow embedding of the
corresponding function or code path of the source file.
-/

namespace Upr

/-! ## Text sanitation: `join_text` and `clean_text` -/

/-- Python `str.replace(old, "")` for a one-character `old`: every occurrence
of the character is removed. -/
def removeChar (old : Char) (s : List Char) : List Char :=
  s.filter (fun c => c != old)

/-- The characters for which Python `str.isspace` holds; this is the character
set stripped by `str.strip()` with no argument. -/
def isPySpace (c : Char) : Bool :=
  ([' ', '\t', '\n', '\r', '\x0b', '\x0c',
    '\x1c', '\x1d', '\x1e', '\x1f', '\u0085', ' ',
    ' ', ' ', ' ', ' ', ' ', ' ', ' ',
    ' ', ' ', ' ', ' ', ' ', ' ', ' ',
    ' ', ' ', '　'] : List Char).contains c

/-- Python `str.strip()`: drop leading and trailing whitespace characters. -/
def pyStrip (s : List Char) : List Char :=
  ((s.dropWhile isPySpace).reverse.dropWhile isPySpace).reverse

/-- Embedding of `clean_text` from generic_spider.py:
`text.replace('\n', '').replace('\r', '').replace('\t', '').replace("/", '').strip()`. -/
def clean_text (s : List Char) : List Char :=
  pyStrip (removeChar '/' (removeChar '\t' (removeChar '\r' (removeChar '\n' s))))

/-- Embedding of `join_text` from generic_spider.py: `" ".join(text_list)`. -/
def join_text (texts : List (List Char)) : List Char :=
  List.intercalate [' '] texts

/-- Modeled from the spec: the join contract described in section 4.1, the
fragments concatenated in order with a single space between consecutive
fragments. -/
def specJoin : List (List Char) → List Char
  | [] => []
  | [f] => f
  | f :: rest => f ++ ' ' :: specJoin rest

/-! ### Helper lemmas on `pyStrip` and filters -/

theorem mem_of_mem_pyStrip {c : Char} {l : List Char} (h : c ∈ pyStrip l) : c ∈ l := by
  unfold pyStrip at h
  rw [List.mem_reverse] at h
  have h1 : c ∈ (l.dropWhile isPySpace).reverse :=
    (List.dropWhile_sublist isPySpace).mem h
  rw [List.mem_reverse] at h1
  exact (List.dropWhile_sublist isPySpace).mem h1

theorem head?_pyStrip_not_space (l : List Char) :
    (pyStrip l).head?.all (fun c => !isPySpace c) = true := by
  unfold pyStrip
  rw [List.head?_reverse]
  rcases List.dropWhile_suffix (l := (l.dropWhile isPySpace).reverse) isPySpace with ⟨t, ht⟩
  cases hB : ((l.dropWhile isPySpace).reverse.dropWhile isPySpace).getLast? with
  | none => simp
  | some c =>
    have h1 : ((l.dropWhile isPySpace).reverse).getLast? = some c := by
      conv_lhs => rw [← ht]
      rw [List.getLast?_append, hB]
      rfl
    rw [List.getLast?_reverse] at h1
    have h2 := List.head?_dropWhile_not isPySpace l
    simp only [h1] at h2
    simp [Option.all, h2]

theorem getLast?_pyStrip_not_space (l : List Char) :
    (pyStrip l).getLast?.all (fun c => !isPySpace c) = true := by
  unfold pyStrip
  rw [List.getLast?_reverse]
  have h := List.head?_dropWhile_not isPySpace (l.dropWhile isPySpace).reverse
  revert h
  cases hh : ((l.dropWhile isPySpace).reverse.dropWhile isPySpace).head? with
  | none => intro _; simp
  | some c => intro h; simpa using h

theorem cleanKeep_eq (c : Char) :
    (c != '/' && c != '\t' && c != '\r' && c != '\n') =
      !(c == '\n' || c == '\r' || c == '\t' || c == '/') := by
  simp only [bne, Bool.not_or]
  cases c == '\n' <;> cases c == '\r' <;> cases c == '\t' <;> cases c == '/' <;> rfl

/-- Claim C1 (amended): `clean_text` removes every newline, carriage-return,
tab and forward-slash character and trims leading and trailing whitespace,
and changes nothing else; consequently its output contains no newline,
carriage-return or tab character and has no leading or trailing
whitespace. -/
theorem clean_text_spec (s : List Char) :
    clean_text s =
      pyStrip (s.filter (fun c => !(c == '\n' || c == '\r' || c == '\t' || c == '/'))) ∧
    ((clean_text s).all (fun c => !(c == '\n' || c == '\r' || c == '\t'))) = true ∧
    (clean_text s).head?.all (fun c => !isPySpace c) = true ∧
    (clean_text s).getLast?.all (fun c => !isPySpace c) = true := by
  have h1 : clean_text s =
      pyStrip (s.filter (fun c => !(c == '\n' || c == '\r' || c == '\t' || c == '/'))) := by
    unfold clean_text removeChar
    rw [List.filter_filter, List.filter_filter, List.filter_filter]
    congr 1
    exact List.filter_congr (fun c _ => cleanKeep_eq c)
  refine ⟨h1, ?_, ?_, ?_⟩
  · rw [List.all_eq_true]
    intro c hc
    rw [h1] at hc
    have hmem := mem_of_mem_pyStrip hc
    have h2 := (List.mem_filter.mp hmem).2
    simp at h2 ⊢
    tauto
  · rw [h1]
    exact head?_pyStrip_not_space _
  · rw [h1]
    exact getLast?_pyStrip_not_space _

/-- Claim C1 (counterexample): the input `a/b` contains no newline,
carriage-return or tab and has no leading or trailing whitespace, so under
the claimed contract `clean_text` would return it unchanged; the function
also strips the forward slash and returns `ab`. -/
theorem clean_text_counterexample :
    clean_text "a/b".toList = "ab".toList ∧
    ("a/b".toList.all (fun c => !(c == '\n' || c == '\r' || c == '\t'))) = true ∧
    pyStrip "a/b".toList = "a/b".toList ∧
    clean_text "a/b".toList ≠ "a/b".toList := by
  refine ⟨by decide, by decide, by decide, by decide⟩

/-- Claim C10: `clean_text` additionally removes every forward-slash
character from its input: no element of the output is a slash, so any
slash-containing fragment is altered beyond the whitespace cleanup. -/
theorem clean_text_no_slash (s : List Char) :
    ((clean_text s).all (fun c => !(c == '/'))) = true := by
  rw [List.all_eq_true]
  intro c hc
  unfold clean_text removeChar at hc
  have hmem := mem_of_mem_pyStrip hc
  have h2 := (List.mem_filter.mp hmem).2
  simpa [bne] using h2

theorem join_text_eq_specJoin : ∀ frags : List (List Char), join_text frags = specJoin frags
  | [] => rfl
  | [f] => by simp [join_text, List.intercalate, specJoin]
  | f :: g :: rest => by
    have ih := join_text_eq_specJoin (g :: rest)
    unfold join_text List.intercalate at ih ⊢
    rw [List.intersperse_cons₂, List.flatten_cons, List.flatten_cons, ih]
    simp [specJoin]

theorem specJoin_length : ∀ frags : List (List Char),
    (specJoin frags).length = (frags.map List.length).sum + frags.length - 1
  | [] => rfl
  | [f] => by simp [specJoin]
  | f :: g :: rest => by
    have ih := specJoin_length (g :: rest)
    simp [specJoin] at ih ⊢
    omega

/-- Claim C9: `join_text` returns exactly the fragments concatenated in
order with a single space between consecutive fragments, and is
length-preserving modulo the inserted separators. -/
theorem join_text_spec (frags : List (List Char)) :
    join_text frags = specJoin frags ∧
    (join_text frags).length = (frags.map List.length).sum + frags.length - 1 := by
  refine ⟨join_text_eq_specJoin frags, ?_⟩
  rw [join_text_eq_specJoin frags]
  exact specJoin_length frags

/-! ## Link classification: the four `LinkExtractor` calls of `UprSpider.parse`

The link-discovery primitive itself (HTML parsing, URL absolutization and
URL-path parsing) is the external collaborator of the specification, section
6; a discovered link therefore carries both its absolute URL and its URL
path.  The allow-patterns below are the exact regular expressions written in
`UprSpider.parse`, with Python `re.search` semantics: `.` matches any
character other than a newline and `$` anchors at the end of the URL
(extracted URLs carry no trailing whitespace).  The three document
extractors are constructed without a `deny_extensions` argument, so on top
of their allow-patterns they apply the default `IGNORED_EXTENSIONS`
deny-list of `scrapy.linkextractors` — which itself contains `pdf`, `doc`
and `docx` — to the `splitext` extension of the URL path; the page
extractor passes an explicit deny-list that replaces the default. -/

/-- Result of `re.search` for a pattern of the shape `.LIT$`: some position
holds a character other than newline followed by the literal `lit` ending
the subject. -/
def matchDotLitEnd (lit : List Char) : List Char → Bool
  | [] => false
  | c :: rest => (c != '\n' && rest == lit) || matchDotLitEnd lit rest

/-- Python substring search, used for the fully literal pattern
`article/download/`. -/
def containsSeq (pat : List Char) : List Char → Bool
  | [] => pat.isEmpty
  | x :: rest => pat.isPrefixOf (x :: rest) || containsSeq pat rest

/-- The PDF allow-patterns of `UprSpider.parse`:
`LinkExtractor(allow=[r".pdf$", r'article/download/'])`. -/
def pdfMatch (url : List Char) : Bool :=
  matchDotLitEnd "pdf".toList url || containsSeq "article/download/".toList url

/-- The DOC allow-pattern of `UprSpider.parse`: `LinkExtractor(allow=('.doc$|.docx$'))`. -/
def docMatch (url : List Char) : Bool :=
  matchDotLitEnd "doc".toList url || matchDotLitEnd "docx".toList url

/-- The TXT allow-pattern of `UprSpider.parse`: `LinkExtractor(allow=r".txt$")`. -/
def txtMatch (url : List Char) : Bool :=
  matchDotLitEnd "txt".toList url

/-- Extension component of `posixpath.splitext` on a URL path: the final
segment from its last dot, or empty when that segment has no dot or only
leading dots. -/
def splitextExt (path : List Char) : List Char :=
  let revBase := path.reverse.takeWhile (fun c => c != '/')
  let post := revBase.takeWhile (fun c => c != '.')
  if post.length = revBase.length then []
  else if (revBase.drop (post.length + 1)).any (fun c => c != '.') then '.' :: post.reverse
  else []

/-- The explicit deny-list passed to the page-recursion `LinkExtractor` in
`UprSpider.parse`. -/
def deny_extensions : List (List Char) :=
  ["rar", "jpg", "jpeg", "gif", "png", "ppt", "pptx", "pdf", "doc", "docx",
   "txt", "xls", "db", "zip", "dpt", "exe", "mso", "wmz", "sav", "tmp"].map String.toList

/-- Deny-extension test of the link extractor: the lower-cased `splitext`
extension of the URL path equals a dot followed by a deny-list entry. -/
def hasDeniedExtension (path : List Char) : Bool :=
  deny_extensions.any (fun e => (splitextExt path).map Char.toLower == '.' :: e)

/-- The default deny-list `scrapy.linkextractors.IGNORED_EXTENSIONS`,
applied by every `LinkExtractor` constructed without a `deny_extensions`
argument — as the three document extractors of `UprSpider.parse` are. -/
def IGNORED_EXTENSIONS : List (List Char) :=
  ["7z", "7zip", "bz2", "rar", "tar", "tar.gz", "xz", "zip",
   "mng", "pct", "bmp", "gif", "jpg", "jpeg", "png", "pst", "psp", "tif",
   "tiff", "ai", "drw", "dxf", "eps", "ps", "svg", "cdr", "ico",
   "mp3", "wma", "ogg", "wav", "ra", "aac", "mid", "au", "aiff",
   "3gp", "asf", "asx", "avi", "mov", "mp4", "mpg", "qt", "rm", "swf",
   "wmv", "m4a", "m4v", "flv", "webm",
   "xls", "xlsx", "ppt", "pptx", "pps", "doc", "docx", "odt", "ods", "odg",
   "odp",
   "css", "pdf", "exe", "bin", "rss", "dmg", "iso", "apk"].map String.toList

/-- Default deny-extension test: the lower-cased `splitext` extension of the
URL path equals a dot followed by an `IGNORED_EXTENSIONS` entry. -/
def hasDefaultDeniedExtension (path : List Char) : Bool :=
  IGNORED_EXTENSIONS.any (fun e => (splitextExt path).map Char.toLower == '.' :: e)

/-- A discovered hyperlink: absolute URL and its URL-path component. -/
structure Link where
  url : List Char
  path : List Char
deriving DecidableEq

/-- The PDF bucket: links whose URL matches the PDF allow-patterns and
whose path extension survives the default deny-list (the extractor is
built without `deny_extensions`). -/
def pdf_links (links : List Link) : List Link :=
  links.filter (fun l => pdfMatch l.url && !hasDefaultDeniedExtension l.path)

/-- The DOC bucket: links whose URL matches the DOC allow-pattern and whose
path extension survives the default deny-list; since `doc` and `docx` are
themselves on that list, only extension-less matches survive. -/
def doc_links (links : List Link) : List Link :=
  links.filter (fun l => docMatch l.url && !hasDefaultDeniedExtension l.path)

/-- The TXT bucket: links whose URL matches the TXT allow-pattern and whose
path extension survives the default deny-list (`txt` is not on it). -/
def txt_links (links : List Link) : List Link :=
  links.filter (fun l => txtMatch l.url && !hasDefaultDeniedExtension l.path)

/-- The page-recursion bucket: links whose URL-path extension is not on the
deny-list. -/
def all_links (links : List Link) : List Link :=
  links.filter (fun l => !hasDeniedExtension l.path)

/-! ### Characterizations of the pattern matchers -/

theorem isPrefixOf_iff_append (pat : List Char) : ∀ u : List Char,
    pat.isPrefixOf u = true ↔ ∃ b, u = pat ++ b := by
  induction pat with
  | nil =>
    intro u
    simp [List.isPrefixOf]
  | cons a as ih =>
    intro u
    cases u with
    | nil =>
      simp [List.isPrefixOf]
    | cons x xs =>
      show (a == x && as.isPrefixOf xs) = true ↔ _
      constructor
      · intro h
        rw [Bool.and_eq_true, beq_iff_eq] at h
        obtain ⟨rfl, h2⟩ := h
        obtain ⟨b, rfl⟩ := (ih xs).mp h2
        exact ⟨b, rfl⟩
      · rintro ⟨b, hb⟩
        rw [List.cons_append] at hb
        simp only [List.cons.injEq] at hb
        obtain ⟨rfl, rfl⟩ := hb
        rw [Bool.and_eq_true, beq_iff_eq]
        exact ⟨rfl, (ih _).mpr ⟨b, rfl⟩⟩

theorem containsSeq_iff (pat : List Char) : ∀ u : List Char,
    containsSeq pat u = true ↔ ∃ a b, u = a ++ (pat ++ b)
  | [] => by
    rw [containsSeq]
    constructor
    · intro h
      rw [List.isEmpty_iff] at h
      exact ⟨[], [], by simp [h]⟩
    · rintro ⟨a, b, h⟩
      have h2 := h.symm
      simp only [List.append_eq_nil] at h2
      rw [List.isEmpty_iff]
      exact h2.2.1
  | x :: rest => by
    rw [containsSeq, Bool.or_eq_true, isPrefixOf_iff_append, containsSeq_iff pat rest]
    constructor
    · rintro (⟨b, hb⟩ | ⟨a, b, hab⟩)
      · exact ⟨[], b, by simp [hb]⟩
      · exact ⟨x :: a, b, by simp [hab]⟩
    · rintro ⟨a, b, hab⟩
      cases a with
      | nil =>
        left
        exact ⟨b, by simpa using hab⟩
      | cons y a' =>
        right
        simp only [List.cons_append, List.cons.injEq] at hab
        exact ⟨a', b, hab.2⟩

theorem matchDotLitEnd_iff (lit : List Char) : ∀ u : List Char,
    matchDotLitEnd lit u = true ↔ ∃ t c, c ≠ '\n' ∧ u = t ++ c :: lit
  | [] => by
    rw [matchDotLitEnd]
    constructor
    · intro h
      exact absurd h (by simp)
    · rintro ⟨t, c, _, ht⟩
      exact absurd ht.symm (by simp)
  | x :: rest => by
    rw [matchDotLitEnd, Bool.or_eq_true, Bool.and_eq_true, bne_iff_ne, beq_iff_eq,
      matchDotLitEnd_iff lit rest]
    constructor
    · rintro (⟨hx, rfl⟩ | ⟨t, c, hc, rfl⟩)
      · exact ⟨[], x, hx, rfl⟩
      · exact ⟨x :: t, c, hc, rfl⟩
    · rintro ⟨t, c, hc, ht⟩
      cases t with
      | nil =>
        simp only [List.nil_append, List.cons.injEq] at ht
        left
        exact ⟨by rw [ht.1]; exact hc, ht.2⟩
      | cons y t' =>
        simp only [List.cons_append, List.cons.injEq] at ht
        right
        exact ⟨t', c, hc, ht.2⟩

theorem matchDotLitEnd_append {lit u : List Char} (h : matchDotLitEnd lit u = true) :
    ∃ s, u = s ++ lit := by
  obtain ⟨t, c, _, rfl⟩ := (matchDotLitEnd_iff lit u).mp h
  exact ⟨t ++ [c], by simp⟩

theorem eq_of_common_suffix {s1 s2 a b : List Char}
    (h : s1 ++ a = s2 ++ b) (hl : a.length = b.length) : a = b :=
  (List.append_inj' h hl).2

/-! ### Claims C2, C6, C7 -/

/-- Claim C2 (counterexample): an extension-less URL that contains the
literal segment `article/download/` and also ends in any character followed
by `doc` is placed in both the PDF bucket and the DOC bucket (its path has
no extension, so the default deny-list does not drop it), so the three
document buckets are not mutually exclusive. -/
theorem classify_overlap_counterexample :
    Link.mk "http://x/article/download/mydoc".toList "/article/download/mydoc".toList ∈
      pdf_links [Link.mk "http://x/article/download/mydoc".toList "/article/download/mydoc".toList] ∧
    Link.mk "http://x/article/download/mydoc".toList "/article/download/mydoc".toList ∈
      doc_links [Link.mk "http://x/article/download/mydoc".toList "/article/download/mydoc".toList] := by
  constructor
  · decide
  · decide

/-- Claim C2 (amended): classification is a total function of the link set,
and the three extension patterns are pairwise disjoint, so a URL that does
not contain the literal segment `article/download/` appears in at most one
of the PDF, DOC and TXT buckets; a URL containing that segment that also
matches the DOC or TXT pattern and survives the default deny-extensions
filter appears in both the PDF bucket and that bucket. -/
theorem classify_document_buckets_disjoint (links : List Link) (l : Link)
    (h : containsSeq "article/download/".toList l.url = false) :
    (l ∈ pdf_links links → l ∉ doc_links links) ∧
    (l ∈ pdf_links links → l ∉ txt_links links) ∧
    (l ∈ doc_links links → l ∉ txt_links links) := by
  have suffix_ne : ∀ a b : List Char, a.length = b.length → a ≠ b →
      (∃ s, l.url = s ++ a) → (∃ s, l.url = s ++ b) → False := by
    rintro a b hlen hne ⟨s1, hs1⟩ ⟨s2, hs2⟩
    exact hne (eq_of_common_suffix (hs1.symm.trans hs2) hlen)
  have hpdf : l ∈ pdf_links links → ∃ s, l.url = s ++ "pdf".toList := by
    intro hp
    have hm := ((List.mem_filter.mp hp).2 : (_ && _) = true)
    rw [Bool.and_eq_true] at hm
    have hm1 := hm.1
    rw [pdfMatch, Bool.or_eq_true, h] at hm1
    rcases hm1 with hm1 | hm1
    · exact matchDotLitEnd_append hm1
    · cases hm1
  have hdoc : l ∈ doc_links links →
      (∃ s, l.url = s ++ "doc".toList) ∨ (∃ s, l.url = s ++ "ocx".toList) := by
    intro hd
    have hm := ((List.mem_filter.mp hd).2 : (_ && _) = true)
    rw [Bool.and_eq_true] at hm
    have hm1 := hm.1
    rw [docMatch, Bool.or_eq_true] at hm1
    rcases hm1 with hm1 | hm1
    · exact Or.inl (matchDotLitEnd_append hm1)
    · obtain ⟨s, hs⟩ := matchDotLitEnd_append hm1
      refine Or.inr ⟨s ++ ['d'], ?_⟩
      rw [hs, List.append_assoc]
      rfl
  have htxt : l ∈ txt_links links → ∃ s, l.url = s ++ "txt".toList := by
    intro ht
    have hm := ((List.mem_filter.mp ht).2 : (_ && _) = true)
    rw [Bool.and_eq_true] at hm
    have hm1 := hm.1
    rw [txtMatch] at hm1
    exact matchDotLitEnd_append hm1
  refine ⟨?_, ?_, ?_⟩
  · intro hp hd
    rcases hdoc hd with hs | hs
    · exact suffix_ne _ _ (by decide) (by decide) (hpdf hp) hs
    · exact suffix_ne _ _ (by decide) (by decide) (hpdf hp) hs
  · intro hp ht
    exact suffix_ne _ _ (by decide) (by decide) (hpdf hp) (htxt ht)
  · intro hd ht
    rcases hdoc hd with hs | hs
    · exact suffix_ne _ _ (by decide) (by decide) hs (htxt ht)
    · exact suffix_ne _ _ (by decide) (by decide) hs (htxt ht)

/-- Witness for `classify_document_buckets_disjoint`, at an extension-less
URL that matches the PDF extension pattern and no other. -/
theorem classify_document_buckets_disjoint_witness :
    containsSeq "article/download/".toList "http://x/apdf".toList = false ∧
    (Link.mk "http://x/apdf".toList "/apdf".toList ∈
        pdf_links [Link.mk "http://x/apdf".toList "/apdf".toList] →
      Link.mk "http://x/apdf".toList "/apdf".toList ∉
        doc_links [Link.mk "http://x/apdf".toList "/apdf".toList]) :=
  ⟨by decide,
    (classify_document_buckets_disjoint
      [Link.mk "http://x/apdf".toList "/apdf".toList]
      (Link.mk "http://x/apdf".toList "/apdf".toList) (by decide)).1⟩

/-- Claim C6 (counterexample): the claimed rule fails in both directions.
The URL `http://x/apdf` lands in the PDF bucket even though its path
neither ends in `.pdf` nor contains `article/download/` (the dot of the
regex `.pdf$` matches any character, and `.pdf` does not even occur in the
URL), while `http://x/f.pdf`, whose path does end in `.pdf`, is dropped by
the default `IGNORED_EXTENSIONS` deny-list and lands in no bucket. -/
theorem pdf_classification_counterexample :
    (Link.mk "http://x/apdf".toList "/apdf".toList ∈
      pdf_links [Link.mk "http://x/apdf".toList "/apdf".toList,
        Link.mk "http://x/f.pdf".toList "/f.pdf".toList]) ∧
    containsSeq ".pdf".toList "http://x/apdf".toList = false ∧
    containsSeq "article/download/".toList "http://x/apdf".toList = false ∧
    ".pdf".toList.isSuffixOf "/f.pdf".toList = true ∧
    (Link.mk "http://x/f.pdf".toList "/f.pdf".toList ∉
      pdf_links [Link.mk "http://x/apdf".toList "/apdf".toList,
        Link.mk "http://x/f.pdf".toList "/f.pdf".toList]) := by
  refine ⟨by decide, by decide, by decide, by decide, by decide⟩

/-- Characterization of the three regex matchers: a URL matches the PDF
patterns exactly when it ends with any non-newline character followed by
`pdf` or contains the literal substring `article/download/` anywhere, and
likewise for the DOC and TXT patterns. -/
theorem classification_regex_characterization (u : List Char) :
    (pdfMatch u = true ↔
      ((∃ t c, c ≠ '\n' ∧ u = t ++ c :: "pdf".toList) ∨
        ∃ a b, u = a ++ ("article/download/".toList ++ b))) ∧
    (docMatch u = true ↔
      ((∃ t c, c ≠ '\n' ∧ u = t ++ c :: "doc".toList) ∨
        ∃ t c, c ≠ '\n' ∧ u = t ++ c :: "docx".toList)) ∧
    (txtMatch u = true ↔ ∃ t c, c ≠ '\n' ∧ u = t ++ c :: "txt".toList) := by
  refine ⟨?_, ?_, ?_⟩
  · rw [pdfMatch, Bool.or_eq_true, matchDotLitEnd_iff, containsSeq_iff]
  · rw [docMatch, Bool.or_eq_true, matchDotLitEnd_iff, matchDotLitEnd_iff]
  · rw [txtMatch, matchDotLitEnd_iff]

theorem hasDefaultDenied_eq_false (p : List Char) :
    hasDefaultDeniedExtension p = false ↔
      ∀ e ∈ IGNORED_EXTENSIONS, (splitextExt p).map Char.toLower ≠ '.' :: e := by
  rw [hasDefaultDeniedExtension, List.any_eq_false]
  constructor
  · intro hf e he
    have h1 := hf e he
    simpa using h1
  · intro hf e he
    simpa using hf e he

/-- Claim C6 (amended): a link is placed in the PDF bucket exactly when its
full URL ends with any non-newline character followed by `pdf` or contains
the literal substring `article/download/` anywhere, and the lower-cased
`splitext` extension of its URL path is not on the default
`IGNORED_EXTENSIONS` deny-list; DOC exactly when the URL ends with any
non-newline character followed by `doc` or by `docx` and the same
deny-list test passes; TXT exactly when the URL ends with any non-newline
character followed by `txt` and the same deny-list test passes. -/
theorem classification_characterization (links : List Link) (l : Link) :
    (l ∈ pdf_links links ↔
      l ∈ links ∧
        (((∃ t c, c ≠ '\n' ∧ l.url = t ++ c :: "pdf".toList) ∨
            ∃ a b, l.url = a ++ ("article/download/".toList ++ b)) ∧
          ∀ e ∈ IGNORED_EXTENSIONS, (splitextExt l.path).map Char.toLower ≠ '.' :: e)) ∧
    (l ∈ doc_links links ↔
      l ∈ links ∧
        (((∃ t c, c ≠ '\n' ∧ l.url = t ++ c :: "doc".toList) ∨
            ∃ t c, c ≠ '\n' ∧ l.url = t ++ c :: "docx".toList) ∧
          ∀ e ∈ IGNORED_EXTENSIONS, (splitextExt l.path).map Char.toLower ≠ '.' :: e)) ∧
    (l ∈ txt_links links ↔
      l ∈ links ∧
        ((∃ t c, c ≠ '\n' ∧ l.url = t ++ c :: "txt".toList) ∧
          ∀ e ∈ IGNORED_EXTENSIONS, (splitextExt l.path).map Char.toLower ≠ '.' :: e)) := by
  refine ⟨?_, ?_, ?_⟩
  · rw [pdf_links, List.mem_filter]
    rw [Bool.and_eq_true, Bool.not_eq_true']
    rw [(classification_regex_characterization l.url).1, hasDefaultDenied_eq_false]
  · rw [doc_links, List.mem_filter]
    rw [Bool.and_eq_true, Bool.not_eq_true']
    rw [(classification_regex_characterization l.url).2.1, hasDefaultDenied_eq_false]
  · rw [txt_links, List.mem_filter]
    rw [Bool.and_eq_true, Bool.not_eq_true']
    rw [(classification_regex_characterization l.url).2.2, hasDefaultDenied_eq_false]

/-- Claim C7: every link in the page-recursion bucket has a URL-path
extension outside the deny-list: for each deny-list entry `e`, the
lower-cased `splitext` extension of the path differs from `.e`. -/
theorem all_links_excludes_denied (links : List Link) (l : Link)
    (h : l ∈ all_links links) :
    (deny_extensions.all
      (fun e => (splitextExt l.path).map Char.toLower != '.' :: e)) = true := by
  have h2 := (List.mem_filter.mp h).2
  have h2' : hasDeniedExtension l.path = false := by simpa using h2
  rw [List.all_eq_true]
  intro e he
  rw [hasDeniedExtension, List.any_eq_false] at h2'
  have h3 := h2' e he
  rw [bne_iff_ne]
  intro heq
  exact h3 (by simp [heq])

/-- Witness for `all_links_excludes_denied`, at a page link with the
extension `.html`. -/
theorem all_links_excludes_denied_witness :
    Link.mk "http://x/a.html".toList "/a.html".toList ∈
      all_links [Link.mk "http://x/a.html".toList "/a.html".toList] ∧
    (deny_extensions.all
      (fun e => (splitextExt "/a.html".toList).map Char.toLower != '.' :: e)) = true :=
  ⟨by decide,
    all_links_excludes_denied [Link.mk "http://x/a.html".toList "/a.html".toList]
      (Link.mk "http://x/a.html".toList "/a.html".toList) (by decide)⟩

/-! ## The crawl scheduler: `UprSpider.parse` as a generator -/

/-- The `WebSite` item of generic_spider.py: the loader stores the list of
matched title texts and the list of matched body texts, each value passed
through `MapCompose(clean_text)`; the `content` field carries the
`join_text` serializer. -/
structure WebSite where
  url : List Char
  title : List (List Char)
  content : List (List Char)
deriving DecidableEq

/-- The values yielded by `UprSpider.parse`, in generator order: requests
bound to `parse_pdf`, `parse_docx` and `parse_txt`, the loaded `WebSite`
item, and recursive requests bound to `parse`. -/
inductive Output where
  | pdfTask : List Char → Output
  | docTask : List Char → Output
  | txtTask : List Char → Output
  | record : WebSite → Output
  | pageTask : List Char → Output
deriving DecidableEq

/-- A fetched page as seen by `parse`: its URL, the text nodes matched by
the title XPath `/html/head/title/text()`, the text nodes matched by the
body XPath (excluding script and style parents), and its discovered
hyperlinks. -/
structure Page where
  url : List Char
  titleTexts : List (List Char)
  bodyTexts : List (List Char)
  links : List Link

/-- The `WebSite` item loaded by `UprSpider.parse` for the current page. -/
def websiteItem (page : Page) : WebSite :=
  { url := page.url
    title := page.titleTexts.map clean_text
    content := page.bodyTexts.map clean_text }

/-- Feed serialization of the `content` field: `Field(serializer=join_text)`. -/
def serializeContent (w : WebSite) : List Char :=
  join_text w.content

/-- Embedding of `UprSpider.parse`: the ordered list of values the
generator yields for one fetched page. -/
def parse (page : Page) : List Output :=
  (pdf_links page.links).map (fun l => Output.pdfTask l.url) ++
  (doc_links page.links).map (fun l => Output.docTask l.url) ++
  (txt_links page.links).map (fun l => Output.txtTask l.url) ++
  [Output.record (websiteItem page)] ++
  (all_links page.links).map (fun l => Output.pageTask l.url)

/-- Recognizer for the yielded `WebSite` record. -/
def isRecordOutput : Output → Bool
  | Output.record _ => true
  | _ => false

/-- Claim C8: for every fetched page, `parse` emits first one task per PDF
link, then one per DOC link, then one per TXT link, then exactly one
`WebSite` record for the current page, and finally one recursive page-fetch
task per page link; in particular exactly one record is emitted. -/
theorem parse_emission_order (page : Page) :
    (∃ ps ds ts os : List (List Char),
      parse page =
        ps.map Output.pdfTask ++ ds.map Output.docTask ++ ts.map Output.txtTask ++
          [Output.record (websiteItem page)] ++ os.map Output.pageTask) ∧
    (parse page).countP isRecordOutput = 1 := by
  constructor
  · refine ⟨(pdf_links page.links).map Link.url, (doc_links page.links).map Link.url,
      (txt_links page.links).map Link.url, (all_links page.links).map Link.url, ?_⟩
    simp [parse, List.map_map, Function.comp_def]
  · simp [parse, List.countP_append, List.countP_map, List.countP_cons,
      isRecordOutput, Function.comp_def]

/-- The end-to-end scenario page of the spec: single title text `Test\r`,
single body fragment `Hello\tWorld\n`, no hyperlinks. -/
def scenarioPage : Page :=
  { url := "http://www.upr.edu.cu/".toList
    titleTexts := ["Test\r".toList]
    bodyTexts := ["Hello\tWorld\n".toList]
    links := [] }

/-- Claim C3 (counterexample): on the scenario page the yielded record has
title `Test` but serialized content `HelloWorld`: `clean_text` deletes the
tab instead of replacing it with a space, so the claimed content
`Hello World` is not produced. -/
theorem scenario_counterexample :
    parse scenarioPage = [Output.record (websiteItem scenarioPage)] ∧
    (websiteItem scenarioPage).title = ["Test".toList] ∧
    serializeContent (websiteItem scenarioPage) ≠ "Hello World".toList := by
  refine ⟨by decide, by decide, by decide⟩

/-- Claim C3 (amended): processing the scenario page yields exactly one
record, with title `Test` and serialized content `HelloWorld`. -/
theorem scenario_record :
    parse scenarioPage = [Output.record (websiteItem scenarioPage)] ∧
    (websiteItem scenarioPage).title = ["Test".toList] ∧
    serializeContent (websiteItem scenarioPage) = "HelloWorld".toList := by
  refine ⟨by decide, by decide, by decide⟩

/-! ## Document extraction callbacks -/

/-- A record produced for a fetched document. -/
structure Document where
  url : List Char
  content : List Char
deriving DecidableEq

/-- Abstract outcome of handing the response body to PyPDF2: either the
construction of `PdfReader` raises, or it yields the per-page results of
`extract_text()`, each of which either returns text or raises. -/
abbrev PdfOutcome := Except (List Char) (List (Except (List Char) (List Char)))

/-- The page loop of `UprSpider.parse_pdf`: `content += ...extract_text()`
page by page; a raising page aborts the loop and the accumulated prefix is
kept by the enclosing handler. -/
def pdfPagesText : List (Except (List Char) (List Char)) → List Char
  | [] => []
  | Except.ok s :: rest => s ++ pdfPagesText rest
  | Except.error _ :: _ => []

/-- Embedding of `UprSpider.parse_pdf`: the whole extraction sits inside
`try/except Exception`, so every outcome produces a `Document` whose
content is what was accumulated before the failure point. -/
def parse_pdf (url : List Char) (outcome : PdfOutcome) : Document :=
  { url := url
    content :=
      match outcome with
      | Except.error _ => []
      | Except.ok pages => pdfPagesText pages }

/-- Success recognizer for a page extraction result. -/
def isOkPage (e : Except (List Char) (List Char)) : Bool :=
  match e with
  | Except.ok _ => true
  | Except.error _ => false

/-- Text of a successful page extraction result. -/
def pageTextOf (e : Except (List Char) (List Char)) : List Char :=
  match e with
  | Except.ok s => s
  | Except.error _ => []

/-- Modeled from the spec: the text accumulated before the failure point,
described declaratively as the concatenation, in page order, of the
successful page texts preceding the first failing page. -/
def specPdfText (outcome : PdfOutcome) : List Char :=
  match outcome with
  | Except.error _ => []
  | Except.ok pages => ((pages.takeWhile isOkPage).map pageTextOf).flatten

theorem pdfPagesText_eq : ∀ pages, pdfPagesText pages =
    ((pages.takeWhile isOkPage).map pageTextOf).flatten
  | [] => rfl
  | Except.ok s :: rest => by
    rw [pdfPagesText, pdfPagesText_eq rest]
    simp [List.takeWhile_cons, isOkPage, pageTextOf]
  | Except.error e :: rest => by
    rw [pdfPagesText]
    simp [List.takeWhile_cons, isOkPage]

/-- Claim C4: `parse_pdf` is total — every outcome, including a failing
parse, yields a `Document` rather than an error — and its content is
exactly the text accumulated page-by-page before the failure point,
possibly the empty string. -/
theorem parse_pdf_partial_content (url : List Char) (outcome : PdfOutcome) :
    parse_pdf url outcome = { url := url, content := specPdfText outcome } := by
  cases outcome with
  | error e => rfl
  | ok pages => simp [parse_pdf, specPdfText, pdfPagesText_eq]

/-- Continuation-byte test for UTF-8 decoding. -/
def utf8Cont (b : Nat) : Bool :=
  0x80 ≤ b && b ≤ 0xBF

/-- Admissible second byte of a three-byte sequence (excluding overlong
encodings after `E0` and surrogate code points after `ED`). -/
def utf8Snd3 (b b1 : Nat) : Bool :=
  if b = 0xE0 then (0xA0 ≤ b1 && b1 ≤ 0xBF : Bool)
  else if b = 0xED then (0x80 ≤ b1 && b1 ≤ 0x9F : Bool)
  else utf8Cont b1

/-- Admissible second byte of a four-byte sequence (excluding overlong
encodings after `F0` and out-of-range code points after `F4`). -/
def utf8Snd4 (b b1 : Nat) : Bool :=
  if b = 0xF0 then (0x90 ≤ b1 && b1 ≤ 0xBF : Bool)
  else if b = 0xF4 then (0x80 ≤ b1 && b1 ≤ 0x8F : Bool)
  else utf8Cont b1

/-- Code point of a two-byte sequence. -/
def utf8Char2 (b b1 : Nat) : Char :=
  Char.ofNat ((b - 0xC0) * 0x40 + (b1 - 0x80))

/-- Code point of a three-byte sequence. -/
def utf8Char3 (b b1 b2 : Nat) : Char :=
  Char.ofNat ((b - 0xE0) * 0x1000 + (b1 - 0x80) * 0x40 + (b2 - 0x80))

/-- Code point of a four-byte sequence. -/
def utf8Char4 (b b1 b2 b3 : Nat) : Char :=
  Char.ofNat ((b - 0xF0) * 0x40000 + (b1 - 0x80) * 0x1000 +
    (b2 - 0x80) * 0x40 + (b3 - 0x80))

/-- One step of strict UTF-8 decoding: given the first byte and the
remaining bytes, either a decoding error or the decoded code point together
with the bytes left over. -/
def utf8Step (b : Nat) (rest : List Nat) : Except (List Char) (Char × List Nat) :=
  if b ≤ 0x7F then Except.ok (Char.ofNat b, rest)
  else if b ≤ 0xC1 then Except.error "invalid start byte".toList
  else if b ≤ 0xDF then
    match rest with
    | b1 :: rest1 =>
      if utf8Cont b1 then Except.ok (utf8Char2 b b1, rest1)
      else Except.error "invalid continuation byte".toList
    | [] => Except.error "unexpected end of data".toList
  else if b ≤ 0xEF then
    match rest with
    | b1 :: b2 :: rest2 =>
      if utf8Snd3 b b1 && utf8Cont b2 then Except.ok (utf8Char3 b b1 b2, rest2)
      else Except.error "invalid continuation byte".toList
    | _ => Except.error "unexpected end of data".toList
  else if b ≤ 0xF4 then
    match rest with
    | b1 :: b2 :: b3 :: rest3 =>
      if utf8Snd4 b b1 && utf8Cont b2 && utf8Cont b3 then
        Except.ok (utf8Char4 b b1 b2 b3, rest3)
      else Except.error "invalid continuation byte".toList
    | _ => Except.error "unexpected end of data".toList
  else Except.error "invalid start byte".toList

/-- Iterated decoding steps, driven by a fuel counter so that the recursion
is structural; `utf8Step` consumes at least one byte per step, so with fuel
set to the byte count the fuel branch is unreachable
(`utf8DecodeAux_fuel_irrel`). -/
def utf8DecodeAux : Nat → List Nat → Except (List Char) (List Char)
  | _, [] => Except.ok []
  | 0, _ :: _ => Except.error "decoder fuel exhausted".toList
  | fuel + 1, b :: rest =>
    match utf8Step b rest with
    | Except.error e => Except.error e
    | Except.ok (c, rest2) => Except.map (fun cs => c :: cs) (utf8DecodeAux fuel rest2)

/-- Strict UTF-8 decoding of a byte sequence, as performed by Python
`bytes.decode('utf-8')`: multi-byte sequences need valid continuation
bytes; overlong encodings and surrogate code points are rejected. -/
def utf8Decode (body : List Nat) : Except (List Char) (List Char) :=
  utf8DecodeAux body.length body

theorem utf8Step_length {b : Nat} {rest : List Nat} {c : Char} {rest2 : List Nat}
    (h : utf8Step b rest = Except.ok (c, rest2)) : rest2.length ≤ rest.length := by
  unfold utf8Step at h
  repeat' split at h
  all_goals simp_all
  all_goals omega

theorem utf8DecodeAux_fuel_irrel : ∀ (fuel1 fuel2 : Nat) (body : List Nat),
    body.length ≤ fuel1 → body.length ≤ fuel2 →
    utf8DecodeAux fuel1 body = utf8DecodeAux fuel2 body
  | f1, f2, [], _, _ => by
    cases f1 <;> cases f2 <;> rfl
  | 0, _, b :: rest, h1, _ => by
    simp at h1
  | _ + 1, 0, b :: rest, _, h2 => by
    simp at h2
  | f1 + 1, f2 + 1, b :: rest, h1, h2 => by
    rw [utf8DecodeAux, utf8DecodeAux]
    cases hstep : utf8Step b rest with
    | error e => rfl
    | ok pair =>
      obtain ⟨c, rest2⟩ := pair
      have hlen := utf8Step_length hstep
      simp only [List.length_cons] at h1 h2
      simp only [utf8DecodeAux_fuel_irrel f1 f2 rest2 (by omega) (by omega)]

/-- Embedding of `UprSpider.parse_txt`:
`content = response.body.decode('utf-8')` with no surrounding try-block, so
a decoding error propagates out of the callback. -/
def parse_txt (url : List Char) (body : List Nat) : Except (List Char) Document :=
  match utf8Decode body with
  | Except.ok s => Except.ok { url := url, content := s }
  | Except.error e => Except.error e

theorem utf8DecodeAux_ascii : ∀ (fuel : Nat) (body : List Nat), (∀ b ∈ body, b < 128) →
    body.length ≤ fuel → utf8DecodeAux fuel body = Except.ok (body.map Char.ofNat)
  | f, [], _, _ => by cases f <;> rfl
  | 0, b :: rest, _, hlen => by simp at hlen
  | fuel + 1, b :: rest, h, hlen => by
    have hb : b < 128 := h b (List.mem_cons_self b rest)
    have ih := utf8DecodeAux_ascii fuel rest (fun x hx => h x (List.mem_cons_of_mem b hx))
      (by simp only [List.length_cons] at hlen; omega)
    rw [utf8DecodeAux]
    have hstep : utf8Step b rest = Except.ok (Char.ofNat b, rest) := by
      unfold utf8Step
      rw [if_pos (by omega : b ≤ 0x7F)]
    rw [hstep]
    simp [ih, Except.map]

theorem utf8Decode_ascii (body : List Nat) (h : ∀ b ∈ body, b < 128) :
    utf8Decode body = Except.ok (body.map Char.ofNat) :=
  utf8DecodeAux_ascii body.length body h (Nat.le_refl _)

theorem char_toNat_ofNat_of_lt {b : Nat} (h : b < 128) : (Char.ofNat b).toNat = b := by
  have hv : b.isValidChar := Or.inl (by omega)
  rw [Char.ofNat, dif_pos hv]
  rfl

theorem map_toNat_map_ofNat (body : List Nat) (h : ∀ b ∈ body, b < 128) :
    (body.map Char.ofNat).map Char.toNat = body := by
  induction body with
  | nil => rfl
  | cons b rest ih =>
    have hb := h b (List.mem_cons_self b rest)
    have ihr := ih (fun x hx => h x (List.mem_cons_of_mem b hx))
    simp [char_toNat_ofNat_of_lt hb, ihr]

/-- Claim C5: `parse_txt` returns exactly the UTF-8 decoding of the payload
bytes when decoding succeeds; a decoding error is not caught and propagates
to the caller, unlike the PDF and DOCX paths; on ASCII payloads the round
trip is byte-exact. -/
theorem parse_txt_spec :
    (∀ url body s, utf8Decode body = Except.ok s →
      parse_txt url body = Except.ok { url := url, content := s }) ∧
    (∀ url body e, utf8Decode body = Except.error e →
      parse_txt url body = Except.error e) ∧
    (∀ url body, (∀ b ∈ body, b < 128) →
      parse_txt url body = Except.ok { url := url, content := body.map Char.ofNat } ∧
      (body.map Char.ofNat).map Char.toNat = body) := by
  refine ⟨?_, ?_, ?_⟩
  · intro url body s h
    unfold parse_txt
    rw [h]
  · intro url body e h
    unfold parse_txt
    rw [h]
  · intro url body h
    refine ⟨?_, map_toNat_map_ofNat body h⟩
    unfold parse_txt
    rw [utf8Decode_ascii body h]

/-- Witness for `parse_txt_spec`, at the two-byte ASCII payload `hi`. -/
theorem parse_txt_spec_witness :
    utf8Decode [104, 105] = Except.ok "hi".toList ∧
    parse_txt "http://x/n.txt".toList [104, 105] =
      Except.ok { url := "http://x/n.txt".toList, content := "hi".toList } :=
  ⟨rfl, parse_txt_spec.1 "http://x/n.txt".toList [104, 105] "hi".toList rfl⟩

end Upr
